import Mathlib

/-!
Verification of the site-scraper's core algorithms against a shallow
embedding of the TypeScript source.  Each section embeds one source
component (contact-page discovery, per-strategy applicability rules, the
download strategy chain, the site orchestrator, the readability scorer,
and the LLM batch processor) and proves the spec's claims about it.
-/

/-! ## String helpers

`strContains s pat` models JavaScript `s.includes(pat)` and `lowerStr`
models `s.toLowerCase()` on the ASCII strings that appear in error
messages and URLs. -/

/-- Whether `p` occurs as a contiguous sublist of the second argument
(JavaScript `String.prototype.includes` semantics on char lists). -/
def hasSub (p : List Char) : List Char → Bool
  | [] => p.isEmpty
  | c :: rest => p.isPrefixOf (c :: rest) || hasSub p rest

/-- JavaScript `s.includes(pat)`. -/
def strContains (s pat : String) : Bool :=
  hasSub pat.toList s.toList

/-- ASCII lower-casing of one character (the fragment of
`toLowerCase()` exercised by the source's error messages and URLs). -/
def lowerChar (c : Char) : Char :=
  if 65 ≤ c.toNat && c.toNat ≤ 90 then Char.ofNat (c.toNat + 32) else c

/-- JavaScript `s.toLowerCase()` on ASCII strings. -/
def lowerStr (s : String) : String :=
  String.mk (s.toList.map lowerChar)

/-! ## Data model (`src/types.ts`) -/

/-- `ExtractedData` from `src/types.ts` / `src/llmProcessor.ts`. -/
structure ExtractedData where
  phone_numbers : List String
  social_media_links : List String
  addresses : List String
deriving DecidableEq, Repr

/-- The empty-but-valid result the code substitutes when no data exists. -/
def emptyExtractedData : ExtractedData :=
  { phone_numbers := [], social_media_links := [], addresses := [] }

/-! ## Contact Page Locator (`ContactFinder`) -/

/-- `ContactFinder.CONTACT_KEYWORDS`. -/
def CONTACT_KEYWORDS : List String := ["contact", "imprint", "impressum", "about"]

/-- `ContactFinder.findContactLinks(links, mainPageUrl)`.  A `none`
first argument models a null/undefined `links` value, which the guard
`if (!links || links.length === 0) return []` turns into `[]`. -/
def findContactLinks (links : Option (List String)) (mainPageUrl : String) : List String :=
  match links with
  | none => []
  | some ls =>
    if ls.isEmpty then []
    else ls.filter (fun link =>
      (CONTACT_KEYWORDS.any (fun keyword => strContains (lowerStr link) keyword))
        && link != mainPageUrl)

/-! ## `LocalHttpStrategy.isApplicable` (`src/strategies/localHttpStrategy.ts`) -/

/-- `LocalHttpStrategy.isApplicable(url, previousError)`; the previous
error is represented by its message string. -/
def localHttpIsApplicable (url : String) (previousError : Option String) : Bool :=
  match previousError with
  | none => false
  | some msg =>
    let m := lowerStr msg
    strContains m "fetch attempts failed" ||
    strContains m "enotfound" ||
    strContains m "econnrefused" ||
    strContains m "timeout" ||
    strContains m "403"

/-! ## Batch queue state (`LLMBatchProcessor`) -/

/-- `LLMInput` from `src/llmProcessor.ts`. -/
structure LLMInput where
  text : String
  siteName : String
deriving DecidableEq, Repr

/-- The mutable fields of `LLMBatchProcessor` that `processRemainingItems`
and the entry guard of `processBatch` read and write. -/
structure BatchQueueState where
  queue : List LLMInput
  processing : Bool
deriving DecidableEq, Repr

/-- The entry of `LLMBatchProcessor.processBatch`: the guard
`if (this.processing || this.queue.length === 0) return;` followed by
setting the busy flag and snapshotting the queue.  Returns whether a
flush actually started, together with the updated state. -/
def processBatchEnter (s : BatchQueueState) : Bool × BatchQueueState :=
  if s.processing || s.queue.isEmpty then (false, s)
  else (true, { queue := [], processing := true })

/-- `LLMBatchProcessor.processRemainingItems`: flush only when
`this.queue.length > 0 && !this.processing`. -/
def processRemainingItems (s : BatchQueueState) : Bool × BatchQueueState :=
  if s.queue.length > 0 && !s.processing then processBatchEnter s
  else (false, s)

/-! ## Download strategies and the strategy chain
(`src/strategies/downloadStrategy.ts` and the concrete strategies)

Each strategy's network-facing `download` method is abstracted as an
oracle `String → Except String DLResult` supplied when the strategy
value is built; `isApplicable` is embedded from the source. -/

/-- `DownloadResult` from `src/types.ts`. -/
structure DLResult where
  content : String
  effectiveUrl : String
  size : Nat
  links : List String
  isMarkdown : Bool
deriving DecidableEq, Repr

/-- The `DownloadStrategy` interface: `name`, `protocol`, `method`,
`isApplicable(url, previousError)` and `download(url)` (the latter as a
behavior oracle; errors are represented by their message). -/
structure DLStrategy where
  name : String
  protocol : String
  method : String
  isApplicable : String → Option String → Bool
  download : String → Except String DLResult

/-- `ExternalHttpsStrategy.isApplicable`. -/
def externalHttpsIsApplicable (url : String) (previousError : Option String) : Bool :=
  match previousError with
  | none => false
  | some msg => strContains (lowerStr msg) "fetch attempts failed"

/-- `ExternalHttpStrategy.isApplicable`. -/
def externalHttpIsApplicable (url : String) (previousError : Option String) : Bool :=
  match previousError with
  | none => false
  | some msg => strContains (lowerStr msg) "external https download failed"

/-- `LocalHttpsStrategy` (its `isApplicable` override always returns true). -/
def localHttpsStrategy (dl : String → Except String DLResult) : DLStrategy :=
  { name := "Local HTTPS", protocol := "HTTPS", method := "Local",
    isApplicable := fun _ _ => true, download := dl }

/-- `LocalHttpStrategy`. -/
def localHttpStrategy (dl : String → Except String DLResult) : DLStrategy :=
  { name := "Local HTTP", protocol := "HTTP", method := "Local",
    isApplicable := localHttpIsApplicable, download := dl }

/-- `ExternalHttpsStrategy`. -/
def externalHttpsStrategy (dl : String → Except String DLResult) : DLStrategy :=
  { name := "External HTTPS", protocol := "HTTPS", method := "External",
    isApplicable := externalHttpsIsApplicable, download := dl }

/-- `ExternalHttpStrategy` (present in the repository, but never added
to the chain built by `SiteProcessor`). -/
def externalHttpStrategy (dl : String → Except String DLResult) : DLStrategy :=
  { name := "External HTTP", protocol := "HTTP", method := "External",
    isApplicable := externalHttpIsApplicable, download := dl }

/-- The loop body of `DownloadStrategyChain.execute`: walk the strategy
list carrying the error of the previous failed attempt, skip strategies
whose `isApplicable` rejects, return on first success, and on exhaustion
fail with the last observed error (or the generic message when no
strategy ran).  Also returns the names of the strategies actually
invoked, in order. -/
def chainExecuteAux (url : String) :
    List DLStrategy → Option String → Except String DLResult × List String
  | [], lastError => (.error (lastError.getD "All download strategies failed"), [])
  | s :: rest, lastError =>
    if s.isApplicable url lastError then
      match s.download url with
      | .ok r => (.ok r, [s.name])
      | .error e =>
        let (out, tr) := chainExecuteAux url rest (some e)
        (out, s.name :: tr)
    else chainExecuteAux url rest lastError

/-- `DownloadStrategyChain.execute(url)`. -/
def chainExecute (strategies : List DLStrategy) (url : String) :
    Except String DLResult × List String :=
  chainExecuteAux url strategies none

/-- The chain assembled in the `SiteProcessor` constructor:
`addStrategy(new LocalHttpsStrategy()).addStrategy(new LocalHttpStrategy())
.addStrategy(new ExternalHttpsStrategy())`. -/
def siteProcessorChain (d1 d2 d3 : String → Except String DLResult) : List DLStrategy :=
  [localHttpsStrategy d1, localHttpStrategy d2, externalHttpsStrategy d3]

/-! ## Site orchestrator (`SiteProcessor.processSite`) -/

/-- `ErrorType` from `src/types.ts`. -/
inductive ErrorType where
  | download
  | llm
  | unexpected
deriving DecidableEq, Repr

/-- The SPA-detection decision `const initialIsSpa = mainSize < 1500;`
in `SiteProcessor.processSite`. -/
def needsRendering (sizeBytes : Nat) : Bool := sizeBytes < 1500

/-- The observable outcome of one `processSite` run: the returned
record's fields plus which optional stages were invoked. -/
structure SiteOutcomeModel where
  success : Bool
  extractedData : Option ExtractedData
  errorType : Option ErrorType
  llmInvoked : Bool
  headlessInvoked : Bool
  llmText : Option String
deriving DecidableEq, Repr

/-- `SiteProcessor.processSite`, with its collaborators abstracted as
oracles: `chainOutcome` is what `downloadChain.execute` produced,
`headlessOutcome` what `headlessBrowser.download` would produce,
`contactContent` what the contact-page stage would contribute, and
`llmOutcome` what `processWithLLM` would return. -/
def processSiteModel (chainOutcome headlessOutcome : Except String DLResult)
    (contactContent : String) (llmOutcome : Except String ExtractedData) :
    SiteOutcomeModel :=
  match chainOutcome with
  | .error _ =>
    { success := true, extractedData := some emptyExtractedData,
      errorType := some .download, llmInvoked := false, headlessInvoked := false,
      llmText := none }
  | .ok result =>
    let initialIsSpa := needsRendering result.size
    let r := if initialIsSpa then
        match headlessOutcome with
        | .ok hr => hr
        | .error _ => result
      else result
    let downloadMethod : String := if r.links.length > 0 then "local"
      else if strContains r.effectiveUrl "jina.ai" then "external" else "search"
    let contactC := if downloadMethod == "local" && r.links.length > 0
      then contactContent else ""
    let finalContent := r.content ++ contactC
    match llmOutcome with
    | .ok d =>
      { success := true, extractedData := some d, errorType := none,
        llmInvoked := true, headlessInvoked := initialIsSpa,
        llmText := some finalContent }
    | .error _ =>
      { success := false, extractedData := none, errorType := some .llm,
        llmInvoked := true, headlessInvoked := initialIsSpa,
        llmText := some finalContent }

/-! ## LLM call retry loop (`LLMBatchProcessor.callLLMWithBatch`) -/

/-- An error thrown inside the batch LLM call; `isTypeError` records
whether it was a JavaScript `TypeError` (the shape
`LLMBatchProcessor.isRetryableError` inspects). -/
structure LLMError where
  isTypeError : Bool
  message : String
deriving DecidableEq, Repr

/-- `LLMBatchProcessor.isRetryableError(error)`. -/
def isRetryableError (e : LLMError) : Bool :=
  (e.isTypeError && e.message == "fetch failed") ||
  (strContains e.message "rate limit" || strContains e.message "quota" ||
    strContains e.message "429") ||
  (strContains e.message "timeout" || strContains e.message "socket hang up") ||
  (strContains e.message "ECONNRESET" || strContains e.message "ETIMEDOUT" ||
    strContains e.message "network error")

/-- `const maxRetries = 2` in `callLLMWithBatch`. -/
def maxRetries : Nat := 2

/-- The message of the detailed error `callLLMWithBatch` throws when it
gives up. -/
def detailedErrorMessage (e : LLMError) : String :=
  "LLM batch processing failed: " ++ e.message

/-- The retry loop of `LLMBatchProcessor.callLLMWithBatch`.  `attempts n`
is the outcome of the n-th outbound call (an oracle for the network);
`delays` accumulates the backoff waits (`1000 * 2 ** (retryCount - 1)`
milliseconds, taken after incrementing `retryCount`) performed before
each retry. -/
def callLLMLoop (attempts : Nat → Except LLMError (List (String × ExtractedData)))
    (retryCount : Nat) (delays : List Nat) :
    Except String (List (String × ExtractedData)) × List Nat :=
  match attempts retryCount with
  | .ok results => (.ok results, delays)
  | .error e =>
    if h : isRetryableError e = true ∧ retryCount < maxRetries then
      callLLMLoop attempts (retryCount + 1) (delays ++ [1000 * 2 ^ retryCount])
    else (.error (detailedErrorMessage e), delays)
termination_by maxRetries + 1 - retryCount
decreasing_by omega

/-- `LLMBatchProcessor.callLLMWithBatch(batch)`, starting from
`retryCount = 0` with no delays taken. -/
def callLLMWithBatch (attempts : Nat → Except LLMError (List (String × ExtractedData))) :
    Except String (List (String × ExtractedData)) × List Nat :=
  callLLMLoop attempts 0 []

/-! ## Theorems -/

/-- Claim C9: `findContactLinks` returns exactly the input links that
case-insensitively contain one of the keywords `contact`, `imprint`,
`impressum`, `about` and differ from the main page URL, preserving input
order; a missing or empty input yields `[]`; and on the concrete input
`["http://a/contact", "http://a/", "http://a/ABOUT"]` with main URL
`"http://a/"` it returns `["http://a/contact", "http://a/ABOUT"]`. -/
theorem findContactLinks_spec :
    (∀ main : String, findContactLinks none main = []) ∧
    (∀ (links : List String) (main : String),
      (findContactLinks (some links) main).Sublist links) ∧
    (∀ (links : List String) (main l : String),
      l ∈ findContactLinks (some links) main ↔
        l ∈ links ∧ (∃ k ∈ CONTACT_KEYWORDS, strContains (lowerStr l) k = true) ∧
          l ≠ main) ∧
    findContactLinks (some ["http://a/contact", "http://a/", "http://a/ABOUT"]) "http://a/"
      = ["http://a/contact", "http://a/ABOUT"] := by
  refine ⟨fun _ => rfl, ?_, ?_, by decide⟩
  · intro links main
    simp only [findContactLinks]
    split
    · simp_all
    · exact List.filter_sublist links
  · intro links main l
    simp only [findContactLinks]
    split
    · rename_i h
      rw [List.isEmpty_iff] at h
      subst h
      simp
    · simp [List.mem_filter, List.any_eq_true, bne_iff_ne]

/-- Claim C7 counterexample: the previous-error message
`"All HTTPS fetch attempts failed for https://example.com"` — the
aggregate error `LocalHttpsStrategy.fetchHtml` actually throws —
contains none of the four transport-failure indicators the claim lists
(timeout, connection refused via `econnrefused`, name resolution failure
via `enotfound`, or `403`), yet `LocalHttpStrategy.isApplicable` returns
`true` on it. -/
theorem localHttpIsApplicable_counterexample :
    localHttpIsApplicable "https://example.com"
        (some "All HTTPS fetch attempts failed for https://example.com") = true ∧
    strContains (lowerStr "All HTTPS fetch attempts failed for https://example.com")
        "timeout" = false ∧
    strContains (lowerStr "All HTTPS fetch attempts failed for https://example.com")
        "econnrefused" = false ∧
    strContains (lowerStr "All HTTPS fetch attempts failed for https://example.com")
        "enotfound" = false ∧
    strContains (lowerStr "All HTTPS fetch attempts failed for https://example.com")
        "403" = false := by decide

/-- Claim C7 (amended): `LocalHttpStrategy.isApplicable` returns `false`
when no previous error exists, and for a previous error it returns `true`
exactly when the lower-cased message contains one of the five signatures
`fetch attempts failed`, `enotfound`, `econnrefused`, `timeout`, `403`
(the claim's four transport-failure indicators plus the aggregate
`fetch attempts failed` marker of an exhausted secure-direct attempt). -/
theorem localHttpIsApplicable_spec :
    (∀ url : String, localHttpIsApplicable url none = false) ∧
    (∀ url msg : String,
      localHttpIsApplicable url (some msg) = true ↔
        (strContains (lowerStr msg) "fetch attempts failed" = true ∨
         strContains (lowerStr msg) "enotfound" = true ∨
         strContains (lowerStr msg) "econnrefused" = true ∨
         strContains (lowerStr msg) "timeout" = true ∨
         strContains (lowerStr msg) "403" = true)) := by
  refine ⟨fun _ => rfl, ?_⟩
  intro url msg
  simp [localHttpIsApplicable, Bool.or_eq_true, or_assoc]

/-- Claim C10: `processRemainingItems` initiates a flush iff the pending
queue is non-empty and no flush is in progress; when a flush is in
flight it returns immediately, leaving the state untouched (no flush,
no rescheduling, no awaiting). -/
theorem processRemainingItems_spec :
    (∀ s : BatchQueueState,
      (processRemainingItems s).1 = true ↔ s.queue ≠ [] ∧ s.processing = false) ∧
    (∀ s : BatchQueueState, s.processing = true → processRemainingItems s = (false, s)) := by
  constructor
  · intro s
    unfold processRemainingItems processBatchEnter
    rcases s with ⟨q, p⟩
    cases p <;> cases q <;> simp
  · intro s hp
    unfold processRemainingItems
    simp [hp]

/-- Witness for claim C10's theorem: with one queued item and a flush in
flight, `processRemainingItems` returns without flushing or changing
state. -/
theorem processRemainingItems_spec_witness :
    processRemainingItems { queue := [{ text := "t", siteName := "a" }], processing := true }
      = (false, { queue := [{ text := "t", siteName := "a" }], processing := true }) :=
  processRemainingItems_spec.2 _ rfl

/-- Claim C2 counterexample: the chain assembled by the `SiteProcessor`
constructor holds three strategies — Local HTTPS, Local HTTP, External
HTTPS — and the remote-proxy-insecure strategy (External HTTP) is not in
it, so the claimed four-strategy priority order does not describe the
code. -/
theorem siteProcessorChain_counterexample :
    ((siteProcessorChain (fun _ => .error "e") (fun _ => .error "e")
        (fun _ => .error "e")).map DLStrategy.name)
      = ["Local HTTPS", "Local HTTP", "External HTTPS"] ∧
    "External HTTP" ∉ ((siteProcessorChain (fun _ => .error "e") (fun _ => .error "e")
        (fun _ => .error "e")).map DLStrategy.name) := by
  constructor
  · rfl
  · decide

/-- Claim C2 (amended): the chain iterates its strategies in the fixed
priority order Local HTTPS (direct-secure), Local HTTP
(direct-insecure), External HTTPS (remote-proxy-secure) — the
remote-proxy-insecure strategy is not part of the chain.  It never
invokes a strategy whose `isApplicable(url, previousError)` rejects the
previous attempt's error, returns the first successful strategy's result
immediately without invoking any later strategy, and when every strategy
is skipped or fails it fails with the last observed error.  Stated as a
closed-form case tree over the three download oracles, whose invoked-
strategy trace exhibits order, skipping and short-circuiting. -/
theorem chainExecute_siteProcessorChain_spec :
    ∀ (d1 d2 d3 : String → Except String DLResult) (url : String),
      chainExecute (siteProcessorChain d1 d2 d3) url =
        match d1 url with
        | .ok r => (.ok r, ["Local HTTPS"])
        | .error e1 =>
          if localHttpIsApplicable url (some e1) then
            match d2 url with
            | .ok r => (.ok r, ["Local HTTPS", "Local HTTP"])
            | .error e2 =>
              if externalHttpsIsApplicable url (some e2) then
                match d3 url with
                | .ok r => (.ok r, ["Local HTTPS", "Local HTTP", "External HTTPS"])
                | .error e3 =>
                  (.error e3, ["Local HTTPS", "Local HTTP", "External HTTPS"])
              else (.error e2, ["Local HTTPS", "Local HTTP"])
          else
            if externalHttpsIsApplicable url (some e1) then
              match d3 url with
              | .ok r => (.ok r, ["Local HTTPS", "External HTTPS"])
              | .error e3 => (.error e3, ["Local HTTPS", "External HTTPS"])
            else (.error e1, ["Local HTTPS"]) := by
  intro d1 d2 d3 url
  simp only [chainExecute, siteProcessorChain, chainExecuteAux, localHttpsStrategy,
    localHttpStrategy, externalHttpsStrategy, if_true]
  cases h1 : d1 url with
  | ok r => rfl
  | error e1 =>
    by_cases hA : localHttpIsApplicable url (some e1)
    · simp only [hA, if_true]
      cases h2 : d2 url with
      | ok r => rfl
      | error e2 =>
        by_cases hB : externalHttpsIsApplicable url (some e2)
        · simp only [hB, if_true]
          cases h3 : d3 url with
          | ok r => rfl
          | error e3 => rfl
        · simp only [hB, if_false, Bool.false_eq_true]
          rfl
    · simp only [hA, if_false, Bool.false_eq_true]
      by_cases hB : externalHttpsIsApplicable url (some e1)
      · simp only [hB, if_true]
        cases h3 : d3 url with
        | ok r => rfl
        | error e3 => rfl
      · simp only [hB, if_false, Bool.false_eq_true]
        rfl

/-- Claim C3: when the download chain fails (every acquisition strategy
failed), `processSite` still completes and returns a record carrying the
empty `ExtractedData` (all three arrays empty), classified with the
download error type, with the LLM extraction step never invoked. -/
theorem processSite_downloadFailure_spec :
    ∀ (e : String) (headlessOutcome : Except String DLResult)
      (contactContent : String) (llmOutcome : Except String ExtractedData),
      processSiteModel (.error e) headlessOutcome contactContent llmOutcome =
        { success := true,
          extractedData := some { phone_numbers := [], social_media_links := [],
                                  addresses := [] },
          errorType := some ErrorType.download,
          llmInvoked := false, headlessInvoked := false, llmText := none } := by
  intro e h c l
  rfl

/-- Claim C4: the orchestrator's SPA-detection decision (whether the
headless rendering fallback is invoked on a successful acquisition) is
true iff the acquired size is strictly below 1500 bytes; at size 1200
the fallback is invoked and at size 1500 it is not. -/
theorem spaDetection_spec :
    (∀ (r : DLResult) (headlessOutcome : Except String DLResult)
      (contactContent : String) (llmOutcome : Except String ExtractedData),
      (processSiteModel (.ok r) headlessOutcome contactContent llmOutcome).headlessInvoked
        = true ↔ r.size < 1500) ∧
    (∀ n : Nat, needsRendering n = true ↔ n < 1500) ∧
    needsRendering 1200 = true ∧ needsRendering 1500 = false := by
  refine ⟨?_, ?_, by decide, by decide⟩
  · intro r h c l
    cases l <;> simp [processSiteModel, needsRendering]
  · intro n
    simp [needsRendering]

/-- Claim C6: on call-level failures the dispatcher retries at most 2
additional times, only for errors classified transient by
`isRetryableError`, waiting 1000ms before the first retry and 2000ms
before the second; a non-transient error or exhaustion of the retries
makes the whole call fail with a single detailed error.  Stated as the
closed-form behavior of the retry loop over an arbitrary attempt
oracle. -/
theorem callLLMWithBatch_retry_spec :
    ∀ attempts : Nat → Except LLMError (List (String × ExtractedData)),
      callLLMWithBatch attempts =
        match attempts 0 with
        | .ok r => (.ok r, [])
        | .error e0 =>
          if isRetryableError e0 then
            match attempts 1 with
            | .ok r => (.ok r, [1000])
            | .error e1 =>
              if isRetryableError e1 then
                match attempts 2 with
                | .ok r => (.ok r, [1000, 2000])
                | .error e2 => (.error (detailedErrorMessage e2), [1000, 2000])
              else (.error (detailedErrorMessage e1), [1000])
          else (.error (detailedErrorMessage e0), []) := by
  intro attempts
  cases h0 : attempts 0 with
  | ok r => simp [callLLMWithBatch, callLLMLoop, h0]
  | error e0 =>
    by_cases hr0 : isRetryableError e0 = true
    · cases h1 : attempts 1 with
      | ok r =>
        simp [callLLMWithBatch, callLLMLoop, h0, h1, hr0, maxRetries]
      | error e1 =>
        by_cases hr1 : isRetryableError e1 = true
        · cases h2 : attempts 2 with
          | ok r =>
            simp [callLLMWithBatch, callLLMLoop, h0, h1, h2, hr0, hr1, maxRetries]
          | error e2 =>
            simp [callLLMWithBatch, callLLMLoop, h0, h1, h2, hr0, hr1, maxRetries]
        · simp [callLLMWithBatch, callLLMLoop, h0, h1, hr0, hr1, maxRetries]
    · simp [callLLMWithBatch, callLLMLoop, h0, hr0]

/-! ## Batch resolution (`LLMBatchProcessor.processBatch`)

`pendingResolvers` is modelled as a characteristic function on siteIds
(the Map holds at most one unresolved completion handle per siteId),
together with a log of settled (siteId, outcome) pairs.  The service
response is an association list keyed by siteId, looked up by first
match (a JavaScript object has unique keys). -/

/-- How a pending request ends: `resolve(data)` or `reject(error)`. -/
inductive SettleOutcome where
  | resolvedWith (d : ExtractedData)
  | rejected (e : String)
deriving DecidableEq, Repr

/-- The resolver side of `LLMBatchProcessor`: which siteIds still hold
an unresolved completion handle, and the settlements performed so far in
order. -/
structure ResolverState where
  pending : String → Bool
  settled : List (String × SettleOutcome)

/-- Settle one siteId: if its resolver is still pending, record the
outcome and delete the resolver (`resolver.resolve/reject` followed by
`pendingResolvers.delete`); otherwise do nothing. -/
def settleOne (sid : String) (o : SettleOutcome) (st : ResolverState) : ResolverState :=
  if st.pending sid then
    { pending := fun x => if x == sid then false else st.pending x,
      settled := st.settled ++ [(sid, o)] }
  else st

/-- A guarded settling pass over a list: for each element `a` (in order)
with `g a` true, settle key `k a` with outcome `f a`. -/
def settleFold (k : α → String) (g : α → Bool) (f : α → SettleOutcome)
    (L : List α) (st : ResolverState) : ResolverState :=
  L.foldl (fun st a => if g a then settleOne (k a) (f a) st else st) st

/-- First loop of the success path of `processBatch`: for every key of
the response object, resolve that siteId with its data. -/
def resolveFromResults (results : List (String × ExtractedData)) : ResolverState → ResolverState :=
  settleFold Prod.fst (fun _ => true) (fun kv => .resolvedWith kv.2) results

/-- Second loop of the success path: every batch member whose siteId is
missing from the response resolves with the empty-but-valid result. -/
def resolveMissing (batch : List LLMInput) (results : List (String × ExtractedData)) :
    ResolverState → ResolverState :=
  settleFold (fun input => input.siteName)
    (fun input => (results.find? (fun kv => kv.1 == input.siteName)).isNone)
    (fun _ => .resolvedWith emptyExtractedData) batch

/-- Failure path of `processBatch`: reject every batch member with the
single shared error. -/
def rejectBatch (batch : List LLMInput) (e : String) : ResolverState → ResolverState :=
  settleFold (fun input => input.siteName) (fun _ => true) (fun _ => .rejected e) batch

/-- The settlement phase of `LLMBatchProcessor.processBatch` applied to
a snapshot `batch` of the queue, given the outcome `response` of
`callLLMWithBatch`. -/
def processBatchResolve (batch : List LLMInput)
    (response : Except String (List (String × ExtractedData)))
    (st : ResolverState) : ResolverState :=
  match response with
  | .ok results => resolveMissing batch results (resolveFromResults results st)
  | .error e => rejectBatch batch e st

/-- The final state the claim predicts for a batch member's siteId. -/
def expectedOutcome (response : Except String (List (String × ExtractedData)))
    (sid : String) : SettleOutcome :=
  match response with
  | .error e => .rejected e
  | .ok results =>
    match results.find? (fun kv => kv.1 == sid) with
    | some kv => .resolvedWith kv.2
    | none => .resolvedWith emptyExtractedData

/-- One step of `settleFold` flips key `x` to not-pending exactly when
the step settles `x`. -/
theorem settleStep_pending (k : α → String) (g : α → Bool) (f : α → SettleOutcome)
    (a : α) (st : ResolverState) (x : String) :
    ((if g a then settleOne (k a) (f a) st else st).pending x)
      = (st.pending x && !(g a && (k a == x))) := by
  by_cases hg : g a
  · by_cases hk : k a = x
    · subst hk
      by_cases hp : st.pending (k a)
      · simp [settleOne, hg, hp]
      · simp [settleOne, hg, hp]
    · have hne : (x == k a) = false := beq_eq_false_iff_ne.mpr (fun h => hk h.symm)
      have hne2 : (k a == x) = false := beq_eq_false_iff_ne.mpr hk
      by_cases hp : st.pending (k a)
      · simp [settleOne, hg, hp, hne, hne2]
        exact fun _ h => hk h.symm
      · simp [settleOne, hg, hp, hne2]
  · have hg2 : g a = false := by simpa using hg
    simp [hg2]

/-- After a settling pass, a key is pending iff it was pending before
and no pass element settled it. -/
theorem settleFold_pending (k : α → String) (g : α → Bool) (f : α → SettleOutcome) :
    ∀ (L : List α) (st : ResolverState) (x : String),
      (settleFold k g f L st).pending x
        = (st.pending x && !(L.any (fun a => g a && (k a == x)))) := by
  intro L
  induction L with
  | nil => intro st x; simp [settleFold]
  | cons a L ih =>
    intro st x
    have hstep : settleFold k g f (a :: L) st
        = settleFold k g f L (if g a then settleOne (k a) (f a) st else st) := rfl
    rw [hstep, ih, settleStep_pending]
    simp [Bool.and_assoc]

/-- After a settling pass, the settlements recorded for a key are those
already present plus, when the key was pending and some pass element
targets it, exactly one new settlement from the first such element. -/
theorem settleFold_filter (k : α → String) (g : α → Bool) (f : α → SettleOutcome) :
    ∀ (L : List α) (st : ResolverState) (x : String),
      ((settleFold k g f L st).settled.filter (fun p => p.1 == x))
        = st.settled.filter (fun p => p.1 == x) ++
          (match L.find? (fun a => g a && (k a == x)) with
           | some a => if st.pending x then [(x, f a)] else []
           | none => []) := by
  intro L
  induction L with
  | nil => intro st x; simp [settleFold]
  | cons a L ih =>
    intro st x
    have hstep : settleFold k g f (a :: L) st
        = settleFold k g f L (if g a then settleOne (k a) (f a) st else st) := rfl
    rw [hstep, ih]
    by_cases hP : (g a && (k a == x)) = true
    · have hfind : (a :: L).find? (fun a => g a && (k a == x)) = some a :=
        List.find?_cons_of_pos _ hP
      rw [hfind]
      obtain ⟨hg, hkx⟩ : g a = true ∧ (k a == x) = true := by simpa using hP
      have hk : k a = x := beq_iff_eq.mp hkx
      subst hk
      by_cases hp : st.pending (k a)
      · have hsettled : (if g a then settleOne (k a) (f a) st else st).settled
            = st.settled ++ [(k a, f a)] := by simp [settleOne, hg, hp]
        have hpend : (if g a then settleOne (k a) (f a) st else st).pending (k a) = false := by
          rw [settleStep_pending]; simp [hP, hg]
        rw [hsettled, hpend, List.filter_append]
        cases hLf : L.find? (fun a2 => g a2 && (k a2 == k a)) <;> simp [hp]
      · have hst : (if g a then settleOne (k a) (f a) st else st) = st := by
          simp [settleOne, hg, hp]
        rw [hst]
        have hp2 : st.pending (k a) = false := by simpa using hp
        cases hLf : L.find? (fun a2 => g a2 && (k a2 == k a)) <;> simp [hp2]
    · have hP2 : (g a && (k a == x)) = false := by simpa using hP
      have hfind : (a :: L).find? (fun a => g a && (k a == x))
          = L.find? (fun a => g a && (k a == x)) :=
        List.find?_cons_of_neg _ (by simp [hP2])
      rw [hfind]
      have hpend : (if g a then settleOne (k a) (f a) st else st).pending x
          = st.pending x := by
        rw [settleStep_pending, hP2]; simp
      have hfilt : ((if g a then settleOne (k a) (f a) st else st).settled.filter
          (fun p => p.1 == x)) = st.settled.filter (fun p => p.1 == x) := by
        by_cases hg : g a
        · by_cases hp : st.pending (k a)
          · have hkx : (k a == x) = false := by
              rcases Bool.and_eq_false_iff.mp hP2 with h | h
              · exact absurd hg (by simp [h])
              · exact h
            simp [settleOne, hg, hp, List.filter_append, hkx]
          · simp [settleOne, hg, hp]
        · simp [hg]
      rw [hpend, hfilt]

/-- `rejectBatch` on the pending flag, specialized. -/
theorem rejectBatch_pending (batch : List LLMInput) (e : String) (st : ResolverState)
    (x : String) :
    (rejectBatch batch e st).pending x
      = (st.pending x && !(batch.any (fun b => b.siteName == x))) := by
  unfold rejectBatch
  rw [settleFold_pending]
  simp only [Bool.true_and]

/-- `rejectBatch` on the settlement log, specialized. -/
theorem rejectBatch_filter (batch : List LLMInput) (e : String) (st : ResolverState)
    (x : String) :
    ((rejectBatch batch e st).settled.filter (fun p => p.1 == x))
      = st.settled.filter (fun p => p.1 == x) ++
        (match batch.find? (fun b => b.siteName == x) with
         | some _ => if st.pending x then [(x, SettleOutcome.rejected e)] else []
         | none => []) := by
  unfold rejectBatch
  rw [settleFold_filter]
  simp only [Bool.true_and]
  cases List.find? (fun a => a.siteName == x) batch <;> rfl

/-- `resolveFromResults` on the pending flag, specialized. -/
theorem resolveFromResults_pending (results : List (String × ExtractedData))
    (st : ResolverState) (x : String) :
    (resolveFromResults results st).pending x
      = (st.pending x && !(results.any (fun kv => kv.1 == x))) := by
  unfold resolveFromResults
  rw [settleFold_pending]
  simp only [Bool.true_and]

/-- `resolveFromResults` on the settlement log, specialized. -/
theorem resolveFromResults_filter (results : List (String × ExtractedData))
    (st : ResolverState) (x : String) :
    ((resolveFromResults results st).settled.filter (fun p => p.1 == x))
      = st.settled.filter (fun p => p.1 == x) ++
        (match results.find? (fun kv => kv.1 == x) with
         | some kv => if st.pending x then [(x, SettleOutcome.resolvedWith kv.2)] else []
         | none => []) := by
  unfold resolveFromResults
  rw [settleFold_filter]
  simp only [Bool.true_and]
  cases List.find? (fun a => a.1 == x) results <;> rfl

/-- `resolveMissing` on the pending flag, specialized. -/
theorem resolveMissing_pending (batch : List LLMInput)
    (results : List (String × ExtractedData)) (st : ResolverState) (x : String) :
    (resolveMissing batch results st).pending x
      = (st.pending x &&
          !(batch.any (fun b =>
            (results.find? (fun kv => kv.1 == b.siteName)).isNone && (b.siteName == x)))) := by
  unfold resolveMissing
  rw [settleFold_pending]

/-- `resolveMissing` on the settlement log, specialized. -/
theorem resolveMissing_filter (batch : List LLMInput)
    (results : List (String × ExtractedData)) (st : ResolverState) (x : String) :
    ((resolveMissing batch results st).settled.filter (fun p => p.1 == x))
      = st.settled.filter (fun p => p.1 == x) ++
        (match batch.find? (fun b =>
            (results.find? (fun kv => kv.1 == b.siteName)).isNone && (b.siteName == x)) with
         | some _ => if st.pending x then [(x, SettleOutcome.resolvedWith emptyExtractedData)] else []
         | none => []) := by
  unfold resolveMissing
  rw [settleFold_filter]
  cases List.find?
      (fun a => (List.find? (fun kv => kv.1 == a.siteName) results).isNone && a.siteName == x)
      batch <;> rfl

/-- Claim C1: for every batch snapshot taken by `processBatch`, every
siteId enqueued in that batch is settled exactly once after the flush
completes: siteIds present in the inference response resolve with their
returned data, siteIds missing from the response resolve with the
empty-but-valid `ExtractedData`, and on a call-level failure every
siteId in the batch is rejected with the single shared error; no
enqueued request is left pending. -/
theorem processBatch_settles_every_siteId :
    ∀ (batch : List LLMInput) (response : Except String (List (String × ExtractedData)))
      (st : ResolverState),
      st.settled = [] →
      (∀ input ∈ batch, st.pending input.siteName = true) →
      ∀ input ∈ batch,
        (processBatchResolve batch response st).pending input.siteName = false ∧
        ((processBatchResolve batch response st).settled.filter
            (fun p => p.1 == input.siteName))
          = [(input.siteName, expectedOutcome response input.siteName)] := by
  intro batch response st hsettled hpending input hmem
  cases response with
  | error e =>
    have hred : processBatchResolve batch (.error e) st = rejectBatch batch e st := rfl
    rw [hred]
    constructor
    · rw [rejectBatch_pending]
      have hany : batch.any (fun b => b.siteName == input.siteName) = true :=
        List.any_eq_true.mpr ⟨input, hmem, by simp⟩
      rw [hany]
      simp
    · rw [rejectBatch_filter, hsettled]
      cases hfind : batch.find? (fun b => b.siteName == input.siteName) with
      | none =>
        have hcontra := List.find?_eq_none.mp hfind input hmem
        simp at hcontra
      | some b =>
        simp [hpending input hmem, expectedOutcome]
  | ok results =>
    have hred : processBatchResolve batch (.ok results) st
        = resolveMissing batch results (resolveFromResults results st) := rfl
    rw [hred]
    cases hfind : results.find? (fun kv => kv.1 == input.siteName) with
    | some kv =>
      have hpkv :=
        @List.find?_some (String × ExtractedData)
          (fun kv2 => kv2.1 == input.siteName) kv results hfind
      have hany : results.any (fun kv => kv.1 == input.siteName) = true :=
        List.any_eq_true.mpr ⟨kv, List.mem_of_find?_eq_some hfind, hpkv⟩
      have hpend1 : (resolveFromResults results st).pending input.siteName = false := by
        rw [resolveFromResults_pending, hany]
        simp
      constructor
      · rw [resolveMissing_pending, hpend1]
        simp
      · rw [resolveMissing_filter, resolveFromResults_filter, hsettled, hfind, hpend1,
          hpending input hmem]
        have hexp : expectedOutcome (.ok results) input.siteName
            = SettleOutcome.resolvedWith kv.2 := by
          simp [expectedOutcome, hfind]
        rw [hexp]
        cases hQ : batch.find? (fun b =>
            (results.find? (fun kv => kv.1 == b.siteName)).isNone
              && (b.siteName == input.siteName)) with
        | none => simp
        | some b => simp
    | none =>
      have hany1 : results.any (fun kv => kv.1 == input.siteName) = false := by
        rw [List.any_eq_false]
        intro kv hkv
        have := List.find?_eq_none.mp hfind kv hkv
        simpa using this
      have hpend1 : (resolveFromResults results st).pending input.siteName = true := by
        rw [resolveFromResults_pending, hany1, hpending input hmem]
        rfl
      have hQin : ((results.find? (fun kv => kv.1 == input.siteName)).isNone
          && (input.siteName == input.siteName)) = true := by
        simp [hfind]
      constructor
      · rw [resolveMissing_pending, hpend1]
        have hany2 : batch.any (fun b =>
            (results.find? (fun kv => kv.1 == b.siteName)).isNone
              && (b.siteName == input.siteName)) = true :=
          List.any_eq_true.mpr ⟨input, hmem, hQin⟩
        rw [hany2]
        rfl
      · rw [resolveMissing_filter, resolveFromResults_filter, hsettled, hfind, hpend1]
        cases hQ : batch.find? (fun b =>
            (results.find? (fun kv => kv.1 == b.siteName)).isNone
              && (b.siteName == input.siteName)) with
        | none =>
          have hcontra := List.find?_eq_none.mp hQ input hmem
          exact absurd hQin hcontra
        | some b =>
          simp [expectedOutcome, hfind]

/-- Witness for claim C1's theorem: a two-site batch whose response
contains data only for site `a`; site `b` is settled exactly once, with
the empty-but-valid result. -/
theorem processBatch_settles_every_siteId_witness :
    (processBatchResolve
        [{ text := "t1", siteName := "a" }, { text := "t2", siteName := "b" }]
        (.ok [("a", { phone_numbers := ["1"], social_media_links := [], addresses := [] })])
        { pending := fun _ => true, settled := [] }).pending "b" = false ∧
    ((processBatchResolve
        [{ text := "t1", siteName := "a" }, { text := "t2", siteName := "b" }]
        (.ok [("a", { phone_numbers := ["1"], social_media_links := [], addresses := [] })])
        { pending := fun _ => true, settled := [] }).settled.filter
          (fun p => p.1 == "b"))
      = [("b", SettleOutcome.resolvedWith emptyExtractedData)] :=
  processBatch_settles_every_siteId
    [{ text := "t1", siteName := "a" }, { text := "t2", siteName := "b" }]
    (.ok [("a", { phone_numbers := ["1"], social_media_links := [], addresses := [] })])
    { pending := fun _ => true, settled := [] }
    rfl (fun _ _ => rfl) { text := "t2", siteName := "b" } (by simp)

/-! ## Hostname-variant fallback (`LocalHttpsStrategy.fetchHtml` /
`generateUrlVariations`)

URLs are modelled as `scheme://host[path]`; serialization normalizes an
empty path to `/` exactly as the WHATWG `URL` class does
(`new URL("https://x.com").toString() === "https://x.com/"`). -/

/-- The fields of a parsed `URL` object used by `generateUrlVariations`. -/
structure UrlModel where
  scheme : String
  host : String
  path : String
deriving DecidableEq, Repr

/-- `urlObj.toString()`. -/
def urlToString (u : UrlModel) : String :=
  u.scheme ++ "://" ++ u.host ++ u.path

/-- `new URL(s)` for the `scheme://host[/path]` fragment of the URL
grammar the strategies exercise; fails on other shapes. -/
def parseUrl (s : String) : Option UrlModel :=
  let cs := s.toList
  let schemeSplit :=
    if cs.take 8 = ['h','t','t','p','s',':','/','/'] then some ("https", cs.drop 8)
    else if cs.take 7 = ['h','t','t','p',':','/','/'] then some ("http", cs.drop 7)
    else none
  match schemeSplit with
  | none => none
  | some (scheme, rest) =>
    let hostChars := rest.takeWhile (fun c => c ≠ '/')
    let pathChars := rest.dropWhile (fun c => c ≠ '/')
    if hostChars.isEmpty then none
    else some { scheme := scheme, host := String.mk hostChars,
                path := if pathChars.isEmpty then "/" else String.mk pathChars }

/-- The `www.`-toggle of `generateUrlVariations`: returns
`(wwwHostname, baseHostname)` for a hostname, per
`hostname.startsWith('www.')`. -/
def hostToggle (host : String) : String × String :=
  if host.toList.take 4 = ['w','w','w','.'] then (host, String.mk (host.toList.drop 4))
  else (String.mk (['w','w','w','.'] ++ host.toList), host)

/-- `generateUrlVariations(url)`: the insertion-ordered contents of the
`Set` built by inserting the `www.`-prefixed serialization and then the
`www.`-stripped serialization. -/
def generateUrlVariations (s : String) : List String :=
  match parseUrl s with
  | none => []
  | some u =>
    let w := urlToString { u with host := (hostToggle u.host).1 }
    let b := urlToString { u with host := (hostToggle u.host).2 }
    if w = b then [w] else [w, b]

/-- The fallback target list actually iterated by `fetchHtml`:
`potentialUrls.delete(url)` removes the original URL from the variant
set. -/
def fallbackTargets (s : String) : List String :=
  (generateUrlVariations s).erase s

/-- An error raised by `got`, as inspected by the strategies'
`isRetryableError`. -/
structure FetchError where
  name : String
  code : String
  statusCode : Option Nat
deriving DecidableEq, Repr

/-- `LocalHttpsStrategy.isRetryableError(error)`. -/
def isRetryableFetchError (e : FetchError) : Bool :=
  e.code == "EPROTO" || e.name == "RequestError" || e.name == "TimeoutError" ||
  e.code == "ENOTFOUND" || e.code == "ECONNREFUSED" || e.statusCode == some 403

/-- The fallback loop of `fetchHtml`: try each target once, in order,
returning on the first success; also returns the targets attempted. -/
def tryFallbacks (oracle : String → Except FetchError String) :
    List String → Except Unit String × List String
  | [] => (.error (), [])
  | t :: ts =>
    match oracle t with
    | .ok html => (.ok html, [t])
    | .error _ =>
      let (r, l) := tryFallbacks oracle ts
      (r, t :: l)

/-- `LocalHttpsStrategy.fetchHtml(url)`: the initial request (outcome
`initial`), then — only on a retryable error — one attempt per
remaining URL variation, with no delay anywhere; on exhaustion it
throws the aggregate error.  Returns the outcome, the full list of
attempted URLs in order, and the list of backoff delays taken (always
empty: this path never sleeps). -/
def fetchHtml (url : String) (initial : Except FetchError String)
    (oracle : String → Except FetchError String) :
    Except String String × List String × List Nat :=
  match initial with
  | .ok html => (.ok html, [url], [])
  | .error e =>
    if isRetryableFetchError e then
      match tryFallbacks oracle (fallbackTargets url) with
      | (.ok html, attempted) => (.ok html, url :: attempted, [])
      | (.error _, attempted) =>
        (.error ("All HTTPS fetch attempts failed for " ++ url), url :: attempted, [])
    else (.error ("All HTTPS fetch attempts failed for " ++ url), [url], [])

/-- The two hostnames produced by the toggle differ in length by 4. -/
theorem hostToggle_length (h : String) :
    ((hostToggle h).1).length = ((hostToggle h).2).length + 4 := by
  unfold hostToggle
  split
  · rename_i htake
    have hlen : (h.toList.take 4).length = 4 := by rw [htake]; rfl
    rw [List.length_take] at hlen
    have h4 : 4 ≤ h.toList.length := by omega
    show h.length = (String.mk (h.toList.drop 4)).length + 4
    have h1 : h.length = h.toList.length := rfl
    have h2 : (String.mk (h.toList.drop 4)).length = h.toList.length - 4 := by
      show (h.toList.drop 4).length = h.toList.length - 4
      rw [List.length_drop]
    omega
  · show (String.mk (['w','w','w','.'] ++ h.toList)).length = h.length + 4
    have h1 : (String.mk (['w','w','w','.'] ++ h.toList)).length
        = (['w','w','w','.'] ++ h.toList).length := rfl
    rw [h1, List.length_append]
    have h2 : h.length = h.toList.length := rfl
    have h4 : (['w','w','w','.'] : List Char).length = 4 := rfl
    omega

/-- Serialization length is determined componentwise. -/
theorem urlToString_length (u : UrlModel) :
    (urlToString u).length = u.scheme.length + 3 + u.host.length + u.path.length := by
  unfold urlToString
  rw [String.length_append, String.length_append, String.length_append]
  have h3 : ("://" : String).length = 3 := rfl
  omega

/-- Counting occurrences in `s` followed by the two-element variant
list with `s` erased: each member of a distinct pair is hit exactly
once. -/
theorem count_cons_erase_pair (s w b : String) (hne : w ≠ b) :
    ((s :: ([w, b].erase s)).count w = 1) ∧ ((s :: ([w, b].erase s)).count b = 1) := by
  have hne2 : b ≠ w := Ne.symm hne
  by_cases hsw : s = w
  · subst hsw
    rw [List.erase_cons_head]
    constructor
    · simp [List.count_cons, hne]
    · simp [List.count_cons, hne2]
  · have hws : w ≠ s := fun h => hsw h.symm
    by_cases hsb : s = b
    · subst hsb
      have herase : [w, s].erase s = [w] := by
        simp [List.erase_cons, hws]
      rw [herase]
      constructor
      · simp [List.count_cons, hws, hne]
      · simp [List.count_cons, hne2]
    · have hbs : b ≠ s := fun h => hsb h.symm
      have herase : [w, b].erase s = [w, b] := by
        simp [List.erase_cons, hws, hbs]
      rw [herase]
      constructor
      · simp [List.count_cons, hws, hne]
      · simp [List.count_cons, hbs, hne2]

/-- Claim C8: on a retryable initial-fetch failure the direct strategy
deterministically generates exactly two hostname variants — the
`www.`-prefixed and the `www.`-stripped serialization of the host (a
toggle of the leading `www.`) — and over the whole `fetchHtml` run each
variant is attempted exactly once before the strategy gives up (the
variant equal to the already-attempted original URL is removed from the
fallback list rather than fetched again), with no time-delayed backoff
between the attempts. -/
theorem fetchHtml_variant_attempts_spec :
    ∀ (s : String) (u : UrlModel) (e : FetchError) (g : String → FetchError),
      parseUrl s = some u →
      isRetryableFetchError e = true →
      (generateUrlVariations s
          = [urlToString { u with host := (hostToggle u.host).1 },
             urlToString { u with host := (hostToggle u.host).2 }]) ∧
      (urlToString { u with host := (hostToggle u.host).1 }
        ≠ urlToString { u with host := (hostToggle u.host).2 }) ∧
      (fetchHtml s (.error e) (fun t => .error (g t))
        = (.error ("All HTTPS fetch attempts failed for " ++ s),
           s :: ((generateUrlVariations s).erase s), [])) ∧
      ((s :: ((generateUrlVariations s).erase s)).count
          (urlToString { u with host := (hostToggle u.host).1 }) = 1) ∧
      ((s :: ((generateUrlVariations s).erase s)).count
          (urlToString { u with host := (hostToggle u.host).2 }) = 1) := by
  intro s u e g hp he
  have hne : urlToString { u with host := (hostToggle u.host).1 }
      ≠ urlToString { u with host := (hostToggle u.host).2 } := by
    intro hEq
    have h1 := urlToString_length { u with host := (hostToggle u.host).1 }
    have h2 := urlToString_length { u with host := (hostToggle u.host).2 }
    have h3 := hostToggle_length u.host
    dsimp only at h1 h2
    rw [hEq] at h1
    omega
  have hvars : generateUrlVariations s
      = [urlToString { u with host := (hostToggle u.host).1 },
         urlToString { u with host := (hostToggle u.host).2 }] := by
    unfold generateUrlVariations
    rw [hp]
    dsimp only
    rw [if_neg hne]
  have htry : ∀ L, tryFallbacks (fun t => .error (g t)) L = (.error (), L) := by
    intro L
    induction L with
    | nil => rfl
    | cons t ts ih => simp [tryFallbacks, ih]
  refine ⟨hvars, hne, ?_, ?_, ?_⟩
  · unfold fetchHtml fallbackTargets
    simp only [he, if_true, htry]
  · rw [hvars]
    exact (count_cons_erase_pair s _ _ hne).1
  · rw [hvars]
    exact (count_cons_erase_pair s _ _ hne).2

/-- Witness for claim C8's theorem: `https://example.com` with a
timeout on the initial request; the two generated variants are the
`www.`-prefixed and `www.`-stripped serializations, and each is
attempted exactly once with no delay. -/
theorem fetchHtml_variant_attempts_witness :
    (generateUrlVariations "https://example.com"
        = [urlToString { scheme := "https", host := (hostToggle "example.com").1, path := "/" },
           urlToString { scheme := "https", host := (hostToggle "example.com").2, path := "/" }]) ∧
    (urlToString { scheme := "https", host := (hostToggle "example.com").1, path := "/" }
      ≠ urlToString { scheme := "https", host := (hostToggle "example.com").2, path := "/" }) ∧
    (fetchHtml "https://example.com"
        (.error { name := "TimeoutError", code := "", statusCode := none })
        (fun t => .error { name := "RequestError", code := "", statusCode := none })
      = (.error ("All HTTPS fetch attempts failed for " ++ "https://example.com"),
         "https://example.com" :: ((generateUrlVariations "https://example.com").erase
            "https://example.com"), [])) ∧
    (("https://example.com" :: ((generateUrlVariations "https://example.com").erase
          "https://example.com")).count
        (urlToString { scheme := "https", host := (hostToggle "example.com").1, path := "/" })
      = 1) ∧
    (("https://example.com" :: ((generateUrlVariations "https://example.com").erase
          "https://example.com")).count
        (urlToString { scheme := "https", host := (hostToggle "example.com").2, path := "/" })
      = 1) :=
  fetchHtml_variant_attempts_spec "https://example.com"
    { scheme := "https", host := "example.com", path := "/" }
    { name := "TimeoutError", code := "", statusCode := none }
    (fun _ => { name := "RequestError", code := "", statusCode := none })
    (by decide) (by decide)

/-! ## Readability scorer (`HeadlessBrowserStrategy.findMainContent`)

The parsed document is a tree of elements, each carrying its tag, class
attribute, id attribute, its own direct text, and its child elements. -/

/-- An element of the parsed document tree. -/
inductive HElem where
  | mk (tag : String) (cls : String) (idAttr : String) (ownText : String)
      (children : List HElem)

/-- The element's tag name. -/
def HElem.tag : HElem → String
  | .mk t _ _ _ _ => t

/-- The element's `class` attribute. -/
def HElem.cls : HElem → String
  | .mk _ c _ _ _ => c

/-- The element's `id` attribute. -/
def HElem.idAttr : HElem → String
  | .mk _ _ i _ _ => i

/-- The element's own direct text. -/
def HElem.ownText : HElem → String
  | .mk _ _ _ o _ => o

/-- The element's children. -/
def HElem.children : HElem → List HElem
  | .mk _ _ _ _ cs => cs

mutual
/-- `$element.text()`: the concatenated text of the element and all its
descendants. -/
def textOf : HElem → String
  | .mk _ _ _ o cs => o ++ textOfList cs

/-- `textOf` over a child list, in order. -/
def textOfList : List HElem → String
  | [] => ""
  | c :: cs => textOf c ++ textOfList cs
end

mutual
/-- Number of elements in a subtree (the element itself included)
satisfying `pred`. -/
def countAllWhere (pred : HElem → Bool) : HElem → Nat
  | .mk t c i o cs =>
    (if pred (.mk t c i o cs) then 1 else 0) + countAllListWhere pred cs

/-- `countAllWhere` summed over a child list. -/
def countAllListWhere (pred : HElem → Bool) : List HElem → Nat
  | [] => 0
  | c :: cs => countAllWhere pred c + countAllListWhere pred cs
end

/-- `$element.find(sel).length`: number of strict descendants
satisfying `pred`. -/
def countDescWhere (pred : HElem → Bool) (e : HElem) : Nat :=
  countAllListWhere pred e.children

mutual
/-- Pre-order traversal pairing every element with its ancestor list
(nearest ancestor first); this is cheerio's document order for a
selector match over the whole tree. -/
def collectWithAnc : List HElem → HElem → List (HElem × List HElem)
  | anc, .mk t c i o cs =>
    (HElem.mk t c i o cs, anc) :: collectListWithAnc (HElem.mk t c i o cs :: anc) cs

/-- `collectWithAnc` over a child list, in order. -/
def collectListWithAnc : List HElem → List HElem → List (HElem × List HElem)
  | _, [] => []
  | anc, c :: cs => collectWithAnc anc c ++ collectListWithAnc anc cs
end

/-- ASCII whitespace for `String.prototype.trim`. -/
def isWsChar (c : Char) : Bool :=
  c == ' ' || c == '\n' || c == '\t' || c == '\r'

/-- `s.trim()`. -/
def jsTrim (s : String) : String :=
  String.mk (((s.toList.dropWhile isWsChar).reverse.dropWhile isWsChar).reverse)

/-- `$element.text().trim().length`. -/
def trimmedTextLength (e : HElem) : Nat :=
  (jsTrim (textOf e)).length

/-- The alternatives of the content-indicating regex
`/content|article|post|entry|text|body|column|main|page/i`. -/
def POSITIVE_PATTERNS : List String :=
  ["content", "article", "post", "entry", "text", "body", "column", "main", "page"]

/-- The alternatives of the boilerplate-indicating regex
`/comment|meta|footer|footnote|sidebar|widget|banner|ad|promo|navigation|nav|menu/i`. -/
def NEGATIVE_PATTERNS : List String :=
  ["comment", "meta", "footer", "footnote", "sidebar", "widget", "banner", "ad",
   "promo", "navigation", "nav", "menu"]

/-- `positiveRegex.test(s)` (case-insensitive alternation). -/
def matchesPositive (s : String) : Bool :=
  POSITIVE_PATTERNS.any (fun p => strContains (lowerStr s) p)

/-- `negativeRegex.test(s)` (case-insensitive alternation). -/
def matchesNegative (s : String) : Bool :=
  NEGATIVE_PATTERNS.any (fun p => strContains (lowerStr s) p)

/-- `($element.attr('class') || '') + ' ' + ($element.attr('id') || '')`. -/
def classAndId (e : HElem) : String :=
  e.cls ++ " " ++ e.idAttr

/-- Paragraph descendant selector `p`. -/
def isParagraph (e : HElem) : Bool := e.tag == "p"

/-- Heading descendant selector `h1, h2, h3, h4, h5, h6`. -/
def isHeading (e : HElem) : Bool :=
  ["h1", "h2", "h3", "h4", "h5", "h6"].contains e.tag

/-- Image descendant selector `img`. -/
def isImage (e : HElem) : Bool := e.tag == "img"

/-- List descendant selector `ul, ol`. -/
def isListTag (e : HElem) : Bool := e.tag == "ul" || e.tag == "ol"

/-- The score `findMainContent` assigns to a candidate element. -/
def scoreElem (e : HElem) : Int :=
  min ((trimmedTextLength e / 100 : Nat) : Int) 20
    + 2 * (countDescWhere isParagraph e : Int)
    + 3 * (countDescWhere isHeading e : Int)
    + (countDescWhere isImage e : Int)
    + 2 * (countDescWhere isListTag e : Int)
    + (if matchesPositive (classAndId e) then 5 else 0)
    - (if matchesNegative (classAndId e) then 10 else 0)

/-- The candidate selector
`div, section, article, main, .content, #content, .post, .article,
.page-content, .entry-content`. -/
def matchesCandidateSelector (e : HElem) : Bool :=
  ["div", "section", "article", "main"].contains e.tag ||
  (let toks := e.cls.splitOn " "
   toks.contains "content" || toks.contains "post" || toks.contains "article" ||
   toks.contains "page-content" || toks.contains "entry-content") ||
  e.idAttr == "content"

/-- The nesting check: some of the element's nearest three ancestors
matches the content-indicating pattern. -/
def isNestedIn (ancestors : List HElem) : Bool :=
  (ancestors.take 3).any (fun p => matchesPositive (classAndId p))

/-- The candidate list built by `findMainContent`'s `each` loop, in
document order: elements matching the candidate selector with
`score > 10 && text.length > 200 && !isNested`, paired with their
scores. -/
def candidateScan (doc : HElem) : List (HElem × Int) :=
  (collectWithAnc [] doc).filterMap (fun p =>
    if matchesCandidateSelector p.1 ∧ 10 < scoreElem p.1
        ∧ 200 < trimmedTextLength p.1 ∧ ¬(isNestedIn p.2 = true)
    then some (p.1, scoreElem p.1) else none)

/-- Stable-descending insertion used to model the JavaScript stable
`candidates.sort((a, b) => b.score - a.score)`: a later element is
placed after every earlier element of greater-or-equal score. -/
def insertDesc (c : HElem × Int) : List (HElem × Int) → List (HElem × Int)
  | [] => [c]
  | d :: ds => if d.2 > c.2 then d :: insertDesc c ds else c :: d :: ds

/-- Stable descending sort by score. -/
def sortCands : List (HElem × Int) → List (HElem × Int)
  | [] => []
  | c :: cs => insertDesc c (sortCands cs)

/-- `HeadlessBrowserStrategy.findMainContent($)`: the top-scoring
candidate is returned only when its score exceeds 20. -/
def findMainContent (doc : HElem) : Option HElem :=
  match sortCands (candidateScan doc) with
  | [] => none
  | top :: _ => if top.2 > 20 then some top.1 else none

/-- `processHtml`: `return mainContent || $('body').html() || ''` — the
caller falls back to the full body when no candidate is selected. -/
def processHtml (doc : HElem) : HElem :=
  (findMainContent doc).getD doc

/-- The first-encountered maximum-score candidate, written as the
claim describes the selection (highest score, first-encountered wins
ties). -/
def firstMax : List (HElem × Int) → Option (HElem × Int)
  | [] => none
  | c :: cs =>
    match firstMax cs with
    | none => some c
    | some m => if m.2 > c.2 then some m else some c

/-- `findMainContent` as the claim words it: among the filtered
candidates, the first-encountered highest-scoring one, returned only
when its score exceeds 20. -/
def findMainContentSpec (doc : HElem) : Option HElem :=
  match firstMax (candidateScan doc) with
  | none => none
  | some m => if m.2 > 20 then some m.1 else none

/-- The head of an insertion depends only on the head of the target
list: the earlier-encountered element wins ties. -/
theorem insertDesc_head (c : HElem × Int) (s : List (HElem × Int)) :
    (insertDesc c s).head? = some (match s.head? with
      | none => c
      | some d => if d.2 > c.2 then d else c) := by
  cases s with
  | nil => rfl
  | cons d ds =>
    simp only [insertDesc, List.head?_cons]
    by_cases h : d.2 > c.2 <;> simp [h]

/-- The head of the stable descending sort is the first-encountered
maximum. -/
theorem sortCands_head : ∀ l, (sortCands l).head? = firstMax l := by
  intro l
  induction l with
  | nil => rfl
  | cons c cs ih =>
    show (insertDesc c (sortCands cs)).head? = firstMax (c :: cs)
    rw [insertDesc_head, ih]
    cases hfm : firstMax cs with
    | none => simp [firstMax, hfm]
    | some m =>
      simp only [firstMax, hfm]
      by_cases h : m.2 > c.2 <;> simp [h]

/-- Claim C5: the readability scorer keeps exactly the candidates with
score over 10 and trimmed text length over 200 that match the candidate
selector and are not nested within three ancestor levels of a
positively-matching container, scoring each by
`min(floor(textLength/100), 20) + 2·paragraphs + 3·headings + images +
2·lists + 5 (content pattern) − 10 (boilerplate pattern)`; it returns
the highest-scoring remaining candidate (first-encountered wins ties)
only when that score exceeds 20, and otherwise selects nothing so the
caller falls back to the full body. -/
theorem findMainContent_readability_spec :
    (∀ doc : HElem, findMainContent doc = findMainContentSpec doc) ∧
    (∀ (doc e : HElem) (s : Int), (e, s) ∈ candidateScan doc →
      s = scoreElem e ∧ 10 < s ∧ 200 < trimmedTextLength e ∧
        matchesCandidateSelector e = true) ∧
    (∀ doc : HElem, findMainContent doc = none → processHtml doc = doc) := by
  refine ⟨?_, ?_, ?_⟩
  · intro doc
    unfold findMainContent findMainContentSpec
    have hh := sortCands_head (candidateScan doc)
    cases hl : sortCands (candidateScan doc) with
    | nil =>
      rw [hl, List.head?_nil] at hh
      rw [← hh]
    | cons top rest =>
      rw [hl, List.head?_cons] at hh
      rw [← hh]
  · intro doc e s hmem
    simp only [candidateScan, List.mem_filterMap] at hmem
    obtain ⟨p, hpmem, hpeq⟩ := hmem
    by_cases hc : matchesCandidateSelector p.1 ∧ 10 < scoreElem p.1
        ∧ 200 < trimmedTextLength p.1 ∧ ¬(isNestedIn p.2 = true)
    · rw [if_pos hc] at hpeq
      have hpair : (p.1, scoreElem p.1) = (e, s) := Option.some.inj hpeq
      have he : p.1 = e := congrArg Prod.fst hpair
      have hs : scoreElem p.1 = s := congrArg Prod.snd hpair
      refine ⟨by rw [← hs, he], by rw [← hs]; exact hc.2.1, ?_, ?_⟩
      · rw [← he]; exact hc.2.2.1
      · rw [← he]; exact hc.1
    · rw [if_neg hc] at hpeq
      exact absurd hpeq (by simp)
  · intro doc hnone
    unfold processHtml
    rw [hnone]
    rfl

/-- Witness for claim C5's theorem: a bare body with no candidate
yields no selection, and the caller keeps the full body. -/
theorem findMainContent_readability_spec_witness :
    processHtml (HElem.mk "body" "" "" "" []) = HElem.mk "body" "" "" "" [] :=
  findMainContent_readability_spec.2.2 (HElem.mk "body" "" "" "" [])
    (by with_unfolding_all rfl)
